import Mathlib

/-!
Verification of the weekly schedule generator (`schedule_generator.py`).

The development shallowly embeds the program's core algorithms:

* `TimeValidator.parse_time` / `TimeValidator.time_to_float` — the ordered
  five-pattern time parser (strings as `List Char`, failure as `Option`);
* `ScheduleGenerator.get_text_color` — the contrast color chooser, with the
  Python float luminance computation modelled by exact IEEE-754 binary64
  round-to-nearest-even rounding on rationals (`flQ`);
* the geometry computed by `ScheduleGenerator.create_schedule_pdf` — grid
  lines and event rectangles over `ℚ`;
* the event-list operations `add_event` / `delete_event`.

Python strings are modelled at ASCII level: the character classes `\s` and
`\d`, `.strip()` and `.upper()` are given their ASCII meaning.
-/

namespace Sched

/-- ASCII whitespace recognised by Python's `str.strip()` and the regex
class `\s`: space, tab, newline, carriage return, vertical tab, form feed. -/
def isSpaceC (c : Char) : Bool :=
  c == ' ' || c == '\t' || c == '\n' || c == '\r' || c.toNat == 11 || c.toNat == 12

/-- Python `str.strip()` on a character list: drop whitespace at both ends. -/
def stripList (l : List Char) : List Char :=
  ((l.dropWhile isSpaceC).reverse.dropWhile isSpaceC).reverse

/-- Python `str.strip()` at `String` level. -/
def stripStr (s : String) : String :=
  ⟨stripList s.data⟩

/-- Normalisation performed at the top of `parse_time`:
`time_str.strip().upper()`. -/
def normalize (s : String) : List Char :=
  (stripList s.data).map Char.toUpper

/-- Numeric value of a list of decimal digits, as computed by Python's
`int` on a digit string. -/
def digitsToNat (l : List Char) : ℕ :=
  l.foldl (fun a c => 10 * a + (c.toNat - 48)) 0

/-- The meridiem designator captured by the `(AM|PM)` group. -/
inductive Mer where
  | AM : Mer
  | PM : Mer
deriving DecidableEq, Repr

/-- Matcher for the regex fragment `(\d{1,2})`: the maximal leading digit
run must have length 1 or 2; returns its value and the rest of the input. -/
def hourPart (s : List Char) : Option (ℕ × List Char) :=
  if (s.takeWhile Char.isDigit).length = 1 ∨ (s.takeWhile Char.isDigit).length = 2 then
    some (digitsToNat (s.takeWhile Char.isDigit), s.dropWhile Char.isDigit)
  else none

/-- Matcher for the regex fragment `(\d{2})`: the maximal leading digit run
must have length exactly 2. -/
def minPart (s : List Char) : Option (ℕ × List Char) :=
  if (s.takeWhile Char.isDigit).length = 2 then
    some (digitsToNat (s.takeWhile Char.isDigit), s.dropWhile Char.isDigit)
  else none

/-- Matcher for the regex fragment `\s*(AM|PM)$`. -/
def merTail (s : List Char) : Option Mer :=
  match s.dropWhile isSpaceC with
  | ['A', 'M'] => some Mer.AM
  | ['P', 'M'] => some Mer.PM
  | _ => none

/-- Pattern 1: `^(\d{1,2}):(\d{2})\s*(AM|PM)$`. -/
def m1 (s : List Char) : Option (ℕ × ℕ × Option Mer) :=
  match hourPart s with
  | some (h, ':' :: r2) =>
    match minPart r2 with
    | some (m, r3) =>
      match merTail r3 with
      | some p => some (h, m, some p)
      | none => none
    | none => none
  | _ => none

/-- Pattern 2: `^(\d{1,2}):(\d{2})$`. -/
def m2 (s : List Char) : Option (ℕ × ℕ × Option Mer) :=
  match hourPart s with
  | some (h, ':' :: r2) =>
    match minPart r2 with
    | some (m, []) => some (h, m, none)
    | _ => none
  | _ => none

/-- Pattern 3: `^(\d{1,2})\s*(AM|PM)$`; the second captured group is the
meridiem, which is not a digit string, so the code sets the minute to 0. -/
def m3 (s : List Char) : Option (ℕ × ℕ × Option Mer) :=
  match hourPart s with
  | some (h, r) =>
    match merTail r with
    | some p => some (h, 0, some p)
    | none => none
  | none => none

/-- Pattern 4: `^(\d{1,2})\.(\d{2})\s*(AM|PM)$`. -/
def m4 (s : List Char) : Option (ℕ × ℕ × Option Mer) :=
  match hourPart s with
  | some (h, '.' :: r2) =>
    match minPart r2 with
    | some (m, r3) =>
      match merTail r3 with
      | some p => some (h, m, some p)
      | none => none
    | none => none
  | _ => none

/-- Pattern 5: `^(\d{1,2})\.(\d{2})$`. -/
def m5 (s : List Char) : Option (ℕ × ℕ × Option Mer) :=
  match hourPart s with
  | some (h, '.' :: r2) =>
    match minPart r2 with
    | some (m, []) => some (h, m, none)
    | _ => none
  | _ => none

/-- The ordered pattern list of `parse_time`. -/
def patterns : List (List Char → Option (ℕ × ℕ × Option Mer)) :=
  [m1, m2, m3, m4, m5]

/-- AM/PM conversion exactly as in the code:
`if period == 'PM' and hour != 12: hour += 12`
`elif period == 'AM' and hour == 12: hour = 0`. -/
def applyMer (p : Option Mer) (h : ℕ) : ℕ :=
  match p with
  | some Mer.PM => if h ≠ 12 then h + 12 else h
  | some Mer.AM => if h = 12 then 0 else h
  | none => h

/-- The range validation `0 <= hour <= 23 and 0 <= minute <= 59`. -/
def checkRange (h m : ℕ) : Option (ℕ × ℕ) :=
  if h ≤ 23 ∧ m ≤ 59 then some (h, m) else none

/-- The code's pattern loop: on the first syntactic match the converted
values are range-checked; a range failure executes `break`, falling through
to the final `raise` (here: `none`). -/
def tryPatternsB : List (List Char → Option (ℕ × ℕ × Option Mer)) → List Char →
    Option (ℕ × ℕ)
  | [], _ => none
  | p :: ps, s =>
    match p s with
    | some (h, m, mer) => checkRange (applyMer mer h) m
    | none => tryPatternsB ps s

/-- The reference pattern loop described by the spec: a range failure on a
syntactic match continues with the subsequent patterns instead of stopping. -/
def tryPatternsC : List (List Char → Option (ℕ × ℕ × Option Mer)) → List Char →
    Option (ℕ × ℕ)
  | [], _ => none
  | p :: ps, s =>
    match p s with
    | some (h, m, mer) =>
      match checkRange (applyMer mer h) m with
      | some v => some v
      | none => tryPatternsC ps s
    | none => tryPatternsC ps s

/-- `TimeValidator.parse_time`: normalise, then try the five ordered
patterns with the code's `break`-on-range-violation behaviour. -/
def parse_time (s : String) : Option (ℕ × ℕ) :=
  tryPatternsB patterns (normalize s)

/-- Modelled from the spec's words: the reference parser that, when a
pattern matches syntactically but the converted hour/minute is out of
range, falls through to the next pattern rather than failing immediately. -/
def parse_time_ref (s : String) : Option (ℕ × ℕ) :=
  tryPatternsC patterns (normalize s)

/-- `TimeValidator.time_to_float`: `hour + minute / 60.0` as an exact
rational. -/
def time_to_float (s : String) : Option ℚ :=
  (parse_time s).map (fun p => (p.1 : ℚ) + (p.2 : ℚ) / 60)

/-- The meridiem conversion rule as worded by the spec:
PM and hour ≠ 12 → hour + 12; AM and hour = 12 → 0; otherwise unchanged. -/
def spec_meridiem_conversion (p : Mer) (h : ℕ) : ℕ :=
  if p = Mer.PM ∧ h ≠ 12 then h + 12
  else if p = Mer.AM ∧ h = 12 then 0
  else h

/-- The syntactic match of a normalised time string against the
meridiem-bearing patterns (1, 3, 4 in declaration order), before AM/PM
conversion and range validation. -/
def merPattern (t : List Char) : Option (ℕ × ℕ × Mer) :=
  match m1 t with
  | some (h, m, some p) => some (h, m, p)
  | _ =>
    match m3 t with
    | some (h, m, some p) => some (h, m, p)
    | _ =>
      match m4 t with
      | some (h, m, some p) => some (h, m, p)
      | _ => none

/-! ### IEEE-754 binary64 rounding, in dyadic integer arithmetic

Python floats are IEEE-754 binary64 values. A float is represented here by
a dyadic pair `(n, k) : ℤ × ℕ` denoting the exact value `n / 2 ^ k`;
`roundPos`/`roundDy` perform round-to-nearest, ties-to-even at 53
significant bits, so every intermediate float of the luminance computation
in `get_text_color` is modelled exactly. The exponent range is unbounded
(no overflow or subnormals), which is faithful for the magnitudes
occurring here. All arithmetic is on `ℕ`/`ℤ`, so the kernel can evaluate
it. -/

/-- Fuelled floor of the base-2 logarithm (structural recursion so the
kernel can evaluate it). -/
def log2fuel : ℕ → ℕ → ℕ
  | 0, _ => 0
  | f + 1, n => if 2 ≤ n then log2fuel f (n / 2) + 1 else 0

/-- Round the fraction `N / D` to the nearest natural number, ties to even. -/
def rne (N D : ℕ) : ℕ :=
  if 2 * (N % D) < D then N / D
  else if D < 2 * (N % D) then N / D + 1
  else if (N / D) % 2 = 0 then N / D else N / D + 1

/-- Round the positive fraction `a / b` to the nearest binary64 value:
locate the binade via a scaled integer logarithm, then round the mantissa
to 53 significant bits, ties to even; the result is a dyadic pair. -/
def roundPos (a b : ℕ) : ℕ × ℕ :=
  if 52 ≤ (log2fuel 400 (a * 2 ^ 200 / b) : ℤ) - 200 then
    (rne a (b * 2 ^ (((log2fuel 400 (a * 2 ^ 200 / b) : ℤ) - 252).toNat)) *
      2 ^ (((log2fuel 400 (a * 2 ^ 200 / b) : ℤ) - 252).toNat), 0)
  else
    (rne (a * 2 ^ ((252 - (log2fuel 400 (a * 2 ^ 200 / b) : ℤ)).toNat)) b,
      (252 - (log2fuel 400 (a * 2 ^ 200 / b) : ℤ)).toNat)

/-- Round the dyadic value `n / 2 ^ k` to the nearest binary64 value. -/
def roundDy (n : ℤ) (k : ℕ) : ℤ × ℕ :=
  if n < 0 then (-((roundPos (-n).toNat (2 ^ k)).1 : ℤ), (roundPos (-n).toNat (2 ^ k)).2)
  else if n = 0 then (0, 0)
  else (((roundPos n.toNat (2 ^ k)).1 : ℤ), (roundPos n.toNat (2 ^ k)).2)

/-- IEEE addition of two binary64 dyadic values: exact sum, then round. -/
def addDy (x y : ℤ × ℕ) : ℤ × ℕ :=
  roundDy (x.1 * 2 ^ y.2 + y.1 * 2 ^ x.2) (x.2 + y.2)

/-- IEEE product of a binary64 dyadic value with an integer (the integer
channels are exactly representable): exact product, then round. -/
def mulIntDy (x : ℤ × ℕ) (r : ℤ) : ℤ × ℕ :=
  roundDy (x.1 * r) x.2

/-- The binary64 value of the literal `0.299`. -/
def c299 : ℤ × ℕ := (((roundPos 299 1000).1 : ℤ), (roundPos 299 1000).2)

/-- The binary64 value of the literal `0.587`. -/
def c587 : ℤ × ℕ := (((roundPos 587 1000).1 : ℤ), (roundPos 587 1000).2)

/-- The binary64 value of the literal `0.114`. -/
def c114 : ℤ × ℕ := (((roundPos 114 1000).1 : ℤ), (roundPos 114 1000).2)

/-- The luminance `(0.299 * r) + (0.587 * g) + (0.114 * b)` exactly as
Python evaluates it: each literal is rounded to binary64 at parse time and
every product and (left-associated) sum is rounded after the operation. -/
def lum_fp (r g b : ℤ) : ℤ × ℕ :=
  addDy (addDy (mulIntDy c299 r) (mulIntDy c587 g)) (mulIntDy c114 b)

/-- The exact rational denoted by a dyadic pair. -/
def dyToRat (x : ℤ × ℕ) : ℚ :=
  (x.1 : ℚ) / 2 ^ x.2

/-- The comparison `luminance > 127.5`, performed on the dyadic value with
integer arithmetic (`n / 2 ^ k > 255 / 2  ↔  255 * 2 ^ k < 2 * n`). -/
def lumGtThreshold (x : ℤ × ℕ) : Bool :=
  255 * 2 ^ x.2 < 2 * x.1

/-! ### Contrast color selection (`ScheduleGenerator.get_text_color`) -/

/-- Hexadecimal digit test, as accepted by Python's `int(s, 16)`. -/
def isHexDigitC (c : Char) : Bool :=
  c.isDigit || ('a' ≤ c && c ≤ 'f') || ('A' ≤ c && c ≤ 'F')

/-- Value of a hexadecimal digit. -/
def hexVal (c : Char) : ℕ :=
  if c.isDigit then c.toNat - 48
  else if 'a' ≤ c && c ≤ 'f' then c.toNat - 87
  else c.toNat - 55

/-- Value of a nonempty hex digit string. -/
def hexToNat (l : List Char) : ℕ :=
  l.foldl (fun a c => 16 * a + hexVal c) 0

/-- Parse a nonempty all-hex digit run. -/
def natHex (l : List Char) : Option ℕ :=
  if l ≠ [] ∧ l.all isHexDigitC then some (hexToNat l) else none

/-- Python's `int(s, 16)` restricted to the at-most-2-character slices it
receives in `get_text_color`: surrounding whitespace is ignored, one
optional sign is allowed, then a nonempty hex digit run must follow.
(Underscore separators and a `0x` prefix, which `int` would also accept,
cannot occur in a valid string of length ≤ 2.) -/
def pyInt16 (s : List Char) : Option ℤ :=
  match stripList s with
  | '+' :: r => (natHex r).map (fun n => (n : ℤ))
  | '-' :: r => (natHex r).map (fun n => -(n : ℤ))
  | r => (natHex r).map (fun n => (n : ℤ))

/-- `ScheduleGenerator.get_text_color`: strip every leading `#`, decode the
slices `[0:2]`, `[2:4]`, `[4:6]` with `int(·, 16)`, and compare the float
luminance against `127.5`; `none` models the `ValueError` a bad slice
raises. -/
def get_text_color (hex_color : String) : Option String :=
  let h := hex_color.data.dropWhile (· == '#')
  match pyInt16 (h.take 2), pyInt16 ((h.drop 2).take 2), pyInt16 ((h.drop 4).take 2) with
  | some r, some g, some b =>
    some (if lumGtThreshold (lum_fp r g b) then "black" else "white")
  | _, _, _ => none

/-- Exact (real-arithmetic) luminance of three decoded channels, as used in
the spec's statement of the threshold rule. -/
def lum_exact (r g b : ℤ) : ℚ :=
  (299 * r + 587 * g + 114 * b : ℤ) / 1000

/-! ### Events and the application state -/

/-- The `ScheduleEvent` dataclass. -/
structure ScheduleEvent where
  title : String
  day : String
  start_time : String
  end_time : String
  location : String
  color : String
deriving DecidableEq, Repr

/-- The `color_presets` mapping, in insertion order. -/
def color_presets : List (String × String) :=
  [("ETSU Gold", "#ffc423"), ("ETSU Blue", "#002d62"), ("Blue", "#3498db"),
   ("Orange", "#e67e22"), ("Green", "#27ae60"), ("Purple", "#9b59b6"),
   ("Red", "#e74c3c"), ("Teal", "#1abc9c"), ("Yellow", "#f1c40f"),
   ("Gray", "#7f8c8d")]

/-- The form fields read by `add_event`. -/
structure AddForm where
  title : String
  day : String
  start_time : String
  end_time : String
  location : String
  color_name : String

/-- `ScheduleGenerator.add_event`: strip the text fields, require the four
mandatory ones nonempty, validate and compare the two times, resolve the
color name with default `"#3498db"`, and append the event; `none` models
every rejected submission (the list is left unchanged by the code then). -/
def add_event (presets : List (String × String)) (events : List ScheduleEvent)
    (f : AddForm) : Option (List ScheduleEvent) :=
  if stripStr f.title ≠ "" ∧ f.day ≠ "" ∧ stripStr f.start_time ≠ "" ∧
      stripStr f.end_time ≠ "" then
    match time_to_float (stripStr f.start_time), time_to_float (stripStr f.end_time) with
    | some sf, some ef =>
      if ef ≤ sf then none
      else
        some (events ++
          [⟨stripStr f.title, f.day, stripStr f.start_time, stripStr f.end_time,
            stripStr f.location, ((presets.lookup f.color_name).getD "#3498db")⟩])
    | _, _ => none
  else none

/-- `ScheduleGenerator.delete_event` on the model list: remove the event at
the given index (the UI guarantees the index addresses a list entry). -/
def delete_event (events : List ScheduleEvent) (i : ℕ) : Option (List ScheduleEvent) :=
  if i < events.length then some (events.eraseIdx i) else none

/-! ### Layout geometry of `create_schedule_pdf` -/

/-- Fixed start of the rendered time range. -/
def start_hour : ℕ := 8

/-- Fixed day column width (`day_width = 2.0`). -/
def day_width : ℚ := 2

/-- `time_height = total_hours * 0.8`. -/
def time_height (total_hours : ℕ) : ℚ :=
  (total_hours : ℚ) * (4 / 5)

/-- The end-hour dictionary keyed by the option-combobox strings. -/
def end_hour_map (s : String) : Option ℕ :=
  if s = "6 PM" then some 18
  else if s = "7 PM" then some 19
  else if s = "8 PM" then some 20
  else if s = "9 PM" then some 21
  else if s = "10 PM" then some 22
  else if s = "11 PM" then some 23
  else none

/-- Days whose checkbox is set, in insertion order. -/
def selected_days (day_vars : List (String × Bool)) : List String :=
  (day_vars.filter (fun p => p.2)).map (fun p => p.1)

/-- The `day_positions` dictionary `{day: i for i, day in enumerate(sel)}`. -/
def dayPositions : List String → ℕ → List (String × ℕ)
  | [], _ => []
  | d :: ds, i => (d, i) :: dayPositions ds (i + 1)

/-- An event rectangle as computed by the layout, tagged with its day. -/
structure EventRect where
  day : String
  x : ℚ
  y : ℚ
  width : ℚ
  height : ℚ
  text_color : String
deriving DecidableEq, Repr

/-- The geometric output of `create_schedule_pdf`: horizontal grid line
y-positions, vertical grid line x-positions, and the event rectangles. -/
structure GridLayout where
  hlines : List ℚ
  vlines : List ℚ
  event_rects : List EventRect
deriving DecidableEq, Repr

/-- Sequence a list of fallible computations (a raised exception anywhere
aborts the whole generation). -/
def traverseOpt (f : α → Option β) : List α → Option (List β)
  | [] => some []
  | a :: as =>
    match f a, traverseOpt f as with
    | some b, some bs => some (b :: bs)
    | _, _ => none

/-- Placement of one event: skipped (`some none`) when its day is not a
selected day; otherwise the inverted-axis rectangle of the event loop in
`create_schedule_pdf`, with `x + 0.05` inset and `day_width - 0.1` width. -/
def placeEvent (pos : List (String × ℕ)) (total_hours : ℕ) (e : ScheduleEvent) :
    Option (Option EventRect) :=
  match pos.lookup e.day with
  | none => some none
  | some i =>
    match time_to_float e.start_time, time_to_float e.end_time,
        get_text_color e.color with
    | some sf, some ef, some tc =>
      let th := time_height total_hours
      let sy := th - (sf - (start_hour : ℚ)) * (th / (total_hours : ℚ))
      let ey := th - (ef - (start_hour : ℚ)) * (th / (total_hours : ℚ))
      some (some ⟨e.day, (i : ℚ) * day_width + 1 / 20, ey, day_width - 1 / 10,
        sy - ey, tc⟩)
    | _, _, _ => none

/-- The geometry computed by `ScheduleGenerator.create_schedule_pdf`:
selected days, end-hour lookup, horizontal grid lines for every hour in
`[start_hour, end_hour]`, vertical grid lines for every day boundary, and
the placed event rectangles. -/
def create_schedule_pdf (events : List ScheduleEvent)
    (day_vars : List (String × Bool)) (end_hour_str : String) :
    Option GridLayout :=
  let sel := selected_days day_vars
  if sel = [] then none
  else
    match end_hour_map end_hour_str with
    | none => none
    | some end_hour =>
      let total := end_hour - start_hour
      let th := time_height total
      let hls := (List.range (end_hour + 1 - start_hour)).map
        (fun k : ℕ => th - (k : ℚ) * (th / (total : ℚ)))
      let vls := (List.range (sel.length + 1)).map
        (fun i : ℕ => (i : ℚ) * day_width)
      match traverseOpt (placeEvent (dayPositions sel 0) total) events with
      | some placed => some ⟨hls, vls, placed.filterMap id⟩
      | none => none

/-- The mutable application state touched by the boundary operations. -/
structure AppState where
  events : List ScheduleEvent
  day_vars : List (String × Bool)
  end_hour_str : String
deriving DecidableEq

/-- `ScheduleGenerator.generate_pdf` as a state transformer: reject an
empty event list, run the layout, and return the (unchanged) state
together with the produced geometry. -/
def generate_pdf (st : AppState) : Option (AppState × GridLayout) :=
  if st.events = [] then none
  else
    match create_schedule_pdf st.events st.day_vars st.end_hour_str with
    | some L => some (st, L)
    | none => none

/-- Concrete sample event used by the examples. -/
def lectureEvent : ScheduleEvent :=
  ⟨"Lecture", "Tuesday", "1 PM", "2 PM", "", "#27ae60"⟩

/-- Concrete sample form with a preset color name. -/
def blueForm : AddForm :=
  ⟨"Office Hours", "Monday", "9:00 AM", "10:30 AM", "Room 210", "Blue"⟩

/-- Concrete sample form whose color name is not a preset. -/
def magentaForm : AddForm :=
  ⟨"Office Hours", "Monday", "9:00 AM", "10:30 AM", "Room 210", "Magenta"⟩

/-- The event of the spec's end-to-end scenario. -/
def officeEvent : ScheduleEvent :=
  ⟨"Office Hours", "Monday", "9:00 AM", "10:30 AM", "Room 210", "#3498db"⟩

/-- A sample state with a Monday event while only Tuesday is selected. -/
def sampleState : AppState :=
  ⟨[officeEvent], [("Monday", false), ("Tuesday", true)], "6 PM"⟩

/-! ## Proofs

### Character classification and matcher shape lemmas -/

theorem digit_ne_special {c : Char} (h : c.isDigit = true) :
    c ≠ ':' ∧ c ≠ '.' ∧ c ≠ 'M' := by
  refine ⟨?_, ?_, ?_⟩ <;> rintro rfl <;> exact absurd h (by decide)

theorem space_ne_special {c : Char} (h : isSpaceC c = true) :
    c ≠ ':' ∧ c ≠ '.' ∧ c ≠ 'M' := by
  refine ⟨?_, ?_, ?_⟩ <;> rintro rfl <;> exact absurd h (by decide)

theorem hourPart_shape {s : List Char} {h : ℕ} {r : List Char}
    (H : hourPart s = some (h, r)) :
    ∃ ds, s = ds ++ r ∧ ds ≠ [] ∧ ∀ c ∈ ds, c.isDigit = true := by
  unfold hourPart at H
  split at H
  · rename_i hlen
    rw [Option.some.injEq, Prod.mk.injEq] at H
    obtain ⟨-, rfl⟩ := H
    refine ⟨s.takeWhile Char.isDigit, (List.takeWhile_append_dropWhile _ _).symm, ?_,
      fun c hc => List.mem_takeWhile_imp hc⟩
    intro hn
    rw [hn] at hlen
    simp at hlen
  · exact absurd H (by simp)

theorem minPart_shape {s : List Char} {m : ℕ} {r : List Char}
    (H : minPart s = some (m, r)) :
    ∃ ms, s = ms ++ r ∧ ms.length = 2 ∧ ∀ c ∈ ms, c.isDigit = true := by
  unfold minPart at H
  split at H
  · rename_i hlen
    rw [Option.some.injEq, Prod.mk.injEq] at H
    obtain ⟨-, rfl⟩ := H
    exact ⟨s.takeWhile Char.isDigit, (List.takeWhile_append_dropWhile _ _).symm, hlen,
      fun c hc => List.mem_takeWhile_imp hc⟩
  · exact absurd H (by simp)

theorem merTail_shape {s : List Char} {p : Mer} (H : merTail s = some p) :
    ∃ sp x, s = sp ++ [x, 'M'] ∧ (∀ c ∈ sp, isSpaceC c = true) ∧
      (x = 'A' ∨ x = 'P') := by
  have hsplit : s = s.takeWhile isSpaceC ++ s.dropWhile isSpaceC :=
    (List.takeWhile_append_dropWhile _ _).symm
  unfold merTail at H
  split at H
  · rename_i heq
    rw [heq] at hsplit
    exact ⟨s.takeWhile isSpaceC, 'A', hsplit,
      fun c hc => List.mem_takeWhile_imp hc, Or.inl rfl⟩
  · rename_i heq
    rw [heq] at hsplit
    exact ⟨s.takeWhile isSpaceC, 'P', hsplit,
      fun c hc => List.mem_takeWhile_imp hc, Or.inr rfl⟩
  · exact absurd H (by simp)

theorem m1_shape {t : List Char} {v : ℕ × ℕ × Option Mer} (H : m1 t = some v) :
    ∃ ds ms sp x, t = ds ++ ':' :: (ms ++ (sp ++ [x, 'M'])) ∧
      (∀ c ∈ ds, c.isDigit = true) ∧ (∀ c ∈ ms, c.isDigit = true) ∧
      (∀ c ∈ sp, isSpaceC c = true) ∧ (x = 'A' ∨ x = 'P') := by
  unfold m1 at H
  split at H
  · rename_i h r2 heq
    split at H
    · rename_i m r3 heq2
      split at H
      · rename_i p heq3
        obtain ⟨ds, ht, -, hds⟩ := hourPart_shape heq
        obtain ⟨ms, hr2, -, hms⟩ := minPart_shape heq2
        obtain ⟨sp, x, hr3, hsp, hx⟩ := merTail_shape heq3
        rw [hr3] at hr2
        rw [hr2] at ht
        exact ⟨ds, ms, sp, x, ht, hds, hms, hsp, hx⟩
      · exact absurd H (by simp)
    · exact absurd H (by simp)
  · exact absurd H (by simp)

theorem m2_shape {t : List Char} {v : ℕ × ℕ × Option Mer} (H : m2 t = some v) :
    ∃ ds ms, t = ds ++ ':' :: ms ∧ (∀ c ∈ ds, c.isDigit = true) ∧
      (∀ c ∈ ms, c.isDigit = true) := by
  unfold m2 at H
  split at H
  · rename_i h r2 heq
    split at H
    · rename_i m heq2
      obtain ⟨ds, ht, -, hds⟩ := hourPart_shape heq
      obtain ⟨ms, hr2, -, hms⟩ := minPart_shape heq2
      rw [List.append_nil] at hr2
      rw [hr2] at ht
      exact ⟨ds, ms, ht, hds, hms⟩
    · exact absurd H (by simp)
  · exact absurd H (by simp)

theorem m3_shape {t : List Char} {v : ℕ × ℕ × Option Mer} (H : m3 t = some v) :
    ∃ ds sp x, t = ds ++ (sp ++ [x, 'M']) ∧ (∀ c ∈ ds, c.isDigit = true) ∧
      (∀ c ∈ sp, isSpaceC c = true) ∧ (x = 'A' ∨ x = 'P') := by
  unfold m3 at H
  split at H
  · rename_i h r heq
    split at H
    · rename_i p heq2
      obtain ⟨ds, ht, -, hds⟩ := hourPart_shape heq
      obtain ⟨sp, x, hr, hsp, hx⟩ := merTail_shape heq2
      rw [hr] at ht
      exact ⟨ds, sp, x, ht, hds, hsp, hx⟩
    · exact absurd H (by simp)
  · exact absurd H (by simp)

theorem m4_shape {t : List Char} {v : ℕ × ℕ × Option Mer} (H : m4 t = some v) :
    ∃ ds ms sp x, t = ds ++ '.' :: (ms ++ (sp ++ [x, 'M'])) ∧
      (∀ c ∈ ds, c.isDigit = true) ∧ (∀ c ∈ ms, c.isDigit = true) ∧
      (∀ c ∈ sp, isSpaceC c = true) ∧ (x = 'A' ∨ x = 'P') := by
  unfold m4 at H
  split at H
  · rename_i h r2 heq
    split at H
    · rename_i m r3 heq2
      split at H
      · rename_i p heq3
        obtain ⟨ds, ht, -, hds⟩ := hourPart_shape heq
        obtain ⟨ms, hr2, -, hms⟩ := minPart_shape heq2
        obtain ⟨sp, x, hr3, hsp, hx⟩ := merTail_shape heq3
        rw [hr3] at hr2
        rw [hr2] at ht
        exact ⟨ds, ms, sp, x, ht, hds, hms, hsp, hx⟩
      · exact absurd H (by simp)
    · exact absurd H (by simp)
  · exact absurd H (by simp)

theorem m5_shape {t : List Char} {v : ℕ × ℕ × Option Mer} (H : m5 t = some v) :
    ∃ ds ms, t = ds ++ '.' :: ms ∧ (∀ c ∈ ds, c.isDigit = true) ∧
      (∀ c ∈ ms, c.isDigit = true) := by
  unfold m5 at H
  split at H
  · rename_i h r2 heq
    split at H
    · rename_i m heq2
      obtain ⟨ds, ht, -, hds⟩ := hourPart_shape heq
      obtain ⟨ms, hr2, -, hms⟩ := minPart_shape heq2
      rw [List.append_nil] at hr2
      rw [hr2] at ht
      exact ⟨ds, ms, ht, hds, hms⟩
    · exact absurd H (by simp)
  · exact absurd H (by simp)

/-! ### Disjointness of the five patterns

No two of the five patterns match the same (normalised) string: the
presence of `':'`, `'.'` and `'M'` separates them. Consequently the code's
`break` on a range violation is observationally equivalent to the spec's
fall-through. -/

theorem m1_has {t : List Char} {v : ℕ × ℕ × Option Mer} (H : m1 t = some v) :
    ':' ∈ t ∧ 'M' ∈ t := by
  obtain ⟨ds, ms, sp, x, ht, -, -, -, -⟩ := m1_shape H
  subst ht
  constructor <;> simp

theorem m2_class {t : List Char} {v : ℕ × ℕ × Option Mer} (H : m2 t = some v) :
    ':' ∈ t ∧ ∀ c ∈ t, c.isDigit = true ∨ c = ':' := by
  obtain ⟨ds, ms, ht, hds, hms⟩ := m2_shape H
  subst ht
  refine ⟨by simp, ?_⟩
  intro c hc
  rcases List.mem_append.1 hc with h | h
  · exact Or.inl (hds c h)
  · rcases List.mem_cons.1 h with h | h
    · exact Or.inr h
    · exact Or.inl (hms c h)

theorem m3_class {t : List Char} {v : ℕ × ℕ × Option Mer} (H : m3 t = some v) :
    ∀ c ∈ t, c.isDigit = true ∨ isSpaceC c = true ∨ c = 'A' ∨ c = 'P' ∨ c = 'M' := by
  obtain ⟨ds, sp, x, ht, hds, hsp, hx⟩ := m3_shape H
  subst ht
  intro c hc
  rcases List.mem_append.1 hc with h | h
  · exact Or.inl (hds c h)
  · rcases List.mem_append.1 h with h | h
    · exact Or.inr (Or.inl (hsp c h))
    · rcases List.mem_cons.1 h with h | h
      · rcases hx with rfl | rfl
        · exact Or.inr (Or.inr (Or.inl h))
        · exact Or.inr (Or.inr (Or.inr (Or.inl h)))
      · rcases List.mem_cons.1 h with h | h
        · exact Or.inr (Or.inr (Or.inr (Or.inr h)))
        · exact absurd h (List.not_mem_nil c)

theorem m4_has {t : List Char} {v : ℕ × ℕ × Option Mer} (H : m4 t = some v) :
    '.' ∈ t ∧ 'M' ∈ t := by
  obtain ⟨ds, ms, sp, x, ht, -, -, -, -⟩ := m4_shape H
  subst ht
  constructor <;> simp

theorem m4_class {t : List Char} {v : ℕ × ℕ × Option Mer} (H : m4 t = some v) :
    ∀ c ∈ t, c.isDigit = true ∨ isSpaceC c = true ∨ c = '.' ∨ c = 'A' ∨ c = 'P' ∨
      c = 'M' := by
  obtain ⟨ds, ms, sp, x, ht, hds, hms, hsp, hx⟩ := m4_shape H
  subst ht
  intro c hc
  rcases List.mem_append.1 hc with h | h
  · exact Or.inl (hds c h)
  · rcases List.mem_cons.1 h with h | h
    · exact Or.inr (Or.inr (Or.inl h))
    · rcases List.mem_append.1 h with h | h
      · exact Or.inl (hms c h)
      · rcases List.mem_append.1 h with h | h
        · exact Or.inr (Or.inl (hsp c h))
        · rcases List.mem_cons.1 h with h | h
          · rcases hx with rfl | rfl
            · exact Or.inr (Or.inr (Or.inr (Or.inl h)))
            · exact Or.inr (Or.inr (Or.inr (Or.inr (Or.inl h))))
          · rcases List.mem_cons.1 h with h | h
            · exact Or.inr (Or.inr (Or.inr (Or.inr (Or.inr h))))
            · exact absurd h (List.not_mem_nil c)

theorem m5_class {t : List Char} {v : ℕ × ℕ × Option Mer} (H : m5 t = some v) :
    '.' ∈ t ∧ ∀ c ∈ t, c.isDigit = true ∨ c = '.' := by
  obtain ⟨ds, ms, ht, hds, hms⟩ := m5_shape H
  subst ht
  refine ⟨by simp, ?_⟩
  intro c hc
  rcases List.mem_append.1 hc with h | h
  · exact Or.inl (hds c h)
  · rcases List.mem_cons.1 h with h | h
    · exact Or.inr h
    · exact Or.inl (hms c h)

theorem m1m2_false {t : List Char} {v w : ℕ × ℕ × Option Mer}
    (H1 : m1 t = some v) (H2 : m2 t = some w) : False := by
  rcases (m2_class H2).2 'M' (m1_has H1).2 with h | h <;> exact absurd h (by decide)

theorem m1m3_false {t : List Char} {v w : ℕ × ℕ × Option Mer}
    (H1 : m1 t = some v) (H3 : m3 t = some w) : False := by
  rcases m3_class H3 ':' (m1_has H1).1 with h | h | h | h | h <;>
    exact absurd h (by decide)

theorem m1m4_false {t : List Char} {v w : ℕ × ℕ × Option Mer}
    (H1 : m1 t = some v) (H4 : m4 t = some w) : False := by
  rcases m4_class H4 ':' (m1_has H1).1 with h | h | h | h | h | h <;>
    exact absurd h (by decide)

theorem m1m5_false {t : List Char} {v w : ℕ × ℕ × Option Mer}
    (H1 : m1 t = some v) (H5 : m5 t = some w) : False := by
  rcases (m5_class H5).2 ':' (m1_has H1).1 with h | h <;> exact absurd h (by decide)

theorem m2m3_false {t : List Char} {v w : ℕ × ℕ × Option Mer}
    (H2 : m2 t = some v) (H3 : m3 t = some w) : False := by
  rcases m3_class H3 ':' (m2_class H2).1 with h | h | h | h | h <;>
    exact absurd h (by decide)

theorem m2m4_false {t : List Char} {v w : ℕ × ℕ × Option Mer}
    (H2 : m2 t = some v) (H4 : m4 t = some w) : False := by
  rcases m4_class H4 ':' (m2_class H2).1 with h | h | h | h | h | h <;>
    exact absurd h (by decide)

theorem m2m5_false {t : List Char} {v w : ℕ × ℕ × Option Mer}
    (H2 : m2 t = some v) (H5 : m5 t = some w) : False := by
  rcases (m5_class H5).2 ':' (m2_class H2).1 with h | h <;> exact absurd h (by decide)

theorem m3m4_false {t : List Char} {v w : ℕ × ℕ × Option Mer}
    (H3 : m3 t = some v) (H4 : m4 t = some w) : False := by
  rcases m3_class H3 '.' (m4_has H4).1 with h | h | h | h | h <;>
    exact absurd h (by decide)

theorem m3m5_false {t : List Char} {v w : ℕ × ℕ × Option Mer}
    (H3 : m3 t = some v) (H5 : m5 t = some w) : False := by
  rcases m3_class H3 '.' (m5_class H5).1 with h | h | h | h | h <;>
    exact absurd h (by decide)

theorem m4m5_false {t : List Char} {v w : ℕ × ℕ × Option Mer}
    (H4 : m4 t = some v) (H5 : m5 t = some w) : False := by
  rcases (m5_class H5).2 'M' (m4_has H4).2 with h | h <;> exact absurd h (by decide)

theorem none_of_false {α : Type} {x : Option α} (h : ∀ w, x = some w → False) :
    x = none := by
  cases hx : x with
  | none => rfl
  | some w => exact (h w hx).elim

/-- C1: on every input, the code's `break` on a range violation agrees with
the spec's fall-through to subsequent patterns, because the five patterns
are pairwise disjoint: `parse_time` coincides with the reference parser
`parse_time_ref` on every string. -/
theorem claim_C1 (s : String) : parse_time s = parse_time_ref s := by
  unfold parse_time parse_time_ref patterns
  generalize normalize s = t
  cases h1 : m1 t with
  | some v =>
    obtain ⟨h, m, mer⟩ := v
    have e2 : m2 t = none := none_of_false fun w hw => m1m2_false h1 hw
    have e3 : m3 t = none := none_of_false fun w hw => m1m3_false h1 hw
    have e4 : m4 t = none := none_of_false fun w hw => m1m4_false h1 hw
    have e5 : m5 t = none := none_of_false fun w hw => m1m5_false h1 hw
    simp only [tryPatternsB, tryPatternsC, h1, e2, e3, e4, e5]
    cases checkRange (applyMer mer h) m <;> rfl
  | none =>
    simp only [tryPatternsB, tryPatternsC, h1]
    cases h2 : m2 t with
    | some v =>
      obtain ⟨h, m, mer⟩ := v
      have e3 : m3 t = none := none_of_false fun w hw => m2m3_false h2 hw
      have e4 : m4 t = none := none_of_false fun w hw => m2m4_false h2 hw
      have e5 : m5 t = none := none_of_false fun w hw => m2m5_false h2 hw
      simp only [tryPatternsB, tryPatternsC, h2, e3, e4, e5]
      cases checkRange (applyMer mer h) m <;> rfl
    | none =>
      simp only [tryPatternsB, tryPatternsC, h2]
      cases h3 : m3 t with
      | some v =>
        obtain ⟨h, m, mer⟩ := v
        have e4 : m4 t = none := none_of_false fun w hw => m3m4_false h3 hw
        have e5 : m5 t = none := none_of_false fun w hw => m3m5_false h3 hw
        simp only [tryPatternsB, tryPatternsC, h3, e4, e5]
        cases checkRange (applyMer mer h) m <;> rfl
      | none =>
        simp only [tryPatternsB, tryPatternsC, h3]
        cases h4 : m4 t with
        | some v =>
          obtain ⟨h, m, mer⟩ := v
          have e5 : m5 t = none := none_of_false fun w hw => m4m5_false h4 hw
          simp only [tryPatternsB, tryPatternsC, h4, e5]
          cases checkRange (applyMer mer h) m <;> rfl
        | none =>
          simp only [tryPatternsB, tryPatternsC, h4]
          cases h5 : m5 t with
          | some v =>
            obtain ⟨h, m, mer⟩ := v
            simp only [tryPatternsB, tryPatternsC, h5]
            cases checkRange (applyMer mer h) m <;> rfl
          | none => simp only [tryPatternsB, tryPatternsC, h5]

/-! ### Meridiem conversion (C2) -/

theorem m1_mer {t : List Char} {h m : ℕ} {mer : Option Mer}
    (H : m1 t = some (h, m, mer)) : ∃ p, mer = some p := by
  unfold m1 at H
  split at H
  · split at H
    · split at H
      · rw [Option.some.injEq, Prod.mk.injEq, Prod.mk.injEq] at H
        exact ⟨_, H.2.2.symm⟩
      · exact absurd H (by simp)
    · exact absurd H (by simp)
  · exact absurd H (by simp)

theorem m3_mer {t : List Char} {h m : ℕ} {mer : Option Mer}
    (H : m3 t = some (h, m, mer)) : ∃ p, mer = some p := by
  unfold m3 at H
  split at H
  · split at H
    · rw [Option.some.injEq, Prod.mk.injEq, Prod.mk.injEq] at H
      exact ⟨_, H.2.2.symm⟩
    · exact absurd H (by simp)
  · exact absurd H (by simp)

theorem m4_mer {t : List Char} {h m : ℕ} {mer : Option Mer}
    (H : m4 t = some (h, m, mer)) : ∃ p, mer = some p := by
  unfold m4 at H
  split at H
  · split at H
    · split at H
      · rw [Option.some.injEq, Prod.mk.injEq, Prod.mk.injEq] at H
        exact ⟨_, H.2.2.symm⟩
      · exact absurd H (by simp)
    · exact absurd H (by simp)
  · exact absurd H (by simp)

theorem checkRange_some {h m h' m' : ℕ} (H : checkRange h m = some (h', m')) :
    h' = h ∧ m' = m ∧ h ≤ 23 ∧ m ≤ 59 := by
  unfold checkRange at H
  split at H
  · rename_i hc
    rw [Option.some.injEq, Prod.mk.injEq] at H
    exact ⟨H.1.symm, H.2.symm, hc.1, hc.2⟩
  · exact absurd H (by simp)

theorem applyMer_eq_spec (p : Mer) (h : ℕ) :
    applyMer (some p) h = spec_meridiem_conversion p h := by
  cases p <;> unfold applyMer spec_meridiem_conversion <;>
    by_cases h12 : h = 12 <;> simp [h12]

/-- C2: whenever one of the meridiem-bearing patterns matches the
normalised input syntactically with raw hour `h`, minute `m` and meridiem
`p`, a successful parse returns exactly the spec's conversion
(PM ∧ h ≠ 12 → h + 12; AM ∧ h = 12 → 0; otherwise h) with the minute
unchanged; moreover all seven concrete examples of the claim hold,
including the failure of `"25:00"`. -/
theorem claim_C2 :
    (∀ (s : String) (h m : ℕ) (p : Mer) (h' m' : ℕ),
      merPattern (normalize s) = some (h, m, p) →
      parse_time s = some (h', m') →
      h' = spec_meridiem_conversion p h ∧ m' = m) ∧
    parse_time "12:00 AM" = some (0, 0) ∧
    parse_time "12:00 PM" = some (12, 0) ∧
    parse_time "11:59 PM" = some (23, 59) ∧
    parse_time "2 PM" = some (14, 0) ∧
    parse_time "14:30" = some (14, 30) ∧
    parse_time "2.55 PM" = some (14, 55) ∧
    parse_time "25:00" = none := by
  refine ⟨?_, by decide, by decide, by decide, by decide, by decide, by decide,
    by decide⟩
  intro s h m p h' m' hms hp
  unfold merPattern at hms
  unfold parse_time patterns at hp
  cases hm1 : m1 (normalize s) with
  | some v =>
    obtain ⟨h0, m0, mer0⟩ := v
    obtain ⟨p0, rfl⟩ := m1_mer hm1
    rw [hm1] at hms
    simp only [Option.some.injEq, Prod.mk.injEq] at hms
    obtain ⟨rfl, rfl, rfl⟩ := hms
    simp only [tryPatternsB, hm1] at hp
    obtain ⟨hh, hm, -, -⟩ := checkRange_some hp
    exact ⟨by rw [hh, applyMer_eq_spec], hm⟩
  | none =>
    rw [hm1] at hms
    cases hm3 : m3 (normalize s) with
    | some v =>
      obtain ⟨h0, m0, mer0⟩ := v
      obtain ⟨p0, rfl⟩ := m3_mer hm3
      rw [hm3] at hms
      simp only [Option.some.injEq, Prod.mk.injEq] at hms
      obtain ⟨rfl, rfl, rfl⟩ := hms
      have e2 : m2 (normalize s) = none :=
        none_of_false fun w hw => m2m3_false hw hm3
      simp only [tryPatternsB, hm1, e2, hm3] at hp
      obtain ⟨hh, hm, -, -⟩ := checkRange_some hp
      exact ⟨by rw [hh, applyMer_eq_spec], hm⟩
    | none =>
      rw [hm3] at hms
      cases hm4 : m4 (normalize s) with
      | some v =>
        obtain ⟨h0, m0, mer0⟩ := v
        obtain ⟨p0, rfl⟩ := m4_mer hm4
        rw [hm4] at hms
        simp only [Option.some.injEq, Prod.mk.injEq] at hms
        obtain ⟨rfl, rfl, rfl⟩ := hms
        have e2 : m2 (normalize s) = none :=
          none_of_false fun w hw => m2m4_false hw hm4
        simp only [tryPatternsB, hm1, e2, hm3, hm4] at hp
        obtain ⟨hh, hm, -, -⟩ := checkRange_some hp
        exact ⟨by rw [hh, applyMer_eq_spec], hm⟩
      | none =>
        rw [hm4] at hms
        exact absurd hms (by simp)

/-- Witness for C2 at the input `"2 PM"`: pattern 3 matches with raw hour
2 and meridiem PM, and the parsed hour 14 is the spec conversion of 2. -/
theorem claim_C2_witness :
    14 = spec_meridiem_conversion Mer.PM 2 ∧ 0 = 0 :=
  claim_C2.1 "2 PM" 2 0 Mer.PM 14 0 (by decide) (by decide)

/-! ### Range of parsed values and monotonicity of `time_to_float` (C9) -/

theorem tryPatternsB_range {ps : List (List Char → Option (ℕ × ℕ × Option Mer))}
    {t : List Char} {h m : ℕ} (H : tryPatternsB ps t = some (h, m)) :
    h ≤ 23 ∧ m ≤ 59 := by
  induction ps with
  | nil => exact absurd H (by simp [tryPatternsB])
  | cons p ps ih =>
    rw [tryPatternsB] at H
    split at H
    · obtain ⟨rfl, rfl, hh, hm⟩ := checkRange_some H
      exact ⟨hh, hm⟩
    · exact ih H

theorem parse_time_range {s : String} {h m : ℕ}
    (H : parse_time s = some (h, m)) : h ≤ 23 ∧ m ≤ 59 :=
  tryPatternsB_range H

/-- C9: `time_to_float` is `parse_time` followed by `hour + minute / 60`,
and it is strictly monotone in the denoted time of day: for two
successfully parsed strings the float of the first is smaller exactly when
its (hour, minute) pair is lexicographically earlier. -/
theorem claim_C9 (t1 t2 : String) (h1 m1' h2 m2' : ℕ)
    (H1 : parse_time t1 = some (h1, m1'))
    (H2 : parse_time t2 = some (h2, m2')) :
    time_to_float t1 = some ((h1 : ℚ) + (m1' : ℚ) / 60) ∧
    time_to_float t2 = some ((h2 : ℚ) + (m2' : ℚ) / 60) ∧
    (((h1 : ℚ) + (m1' : ℚ) / 60 < (h2 : ℚ) + (m2' : ℚ) / 60) ↔
      (h1 < h2 ∨ (h1 = h2 ∧ m1' < m2'))) := by
  obtain ⟨-, b1⟩ := parse_time_range H1
  obtain ⟨-, b2⟩ := parse_time_range H2
  refine ⟨by simp [time_to_float, H1], by simp [time_to_float, H2], ?_⟩
  have step1 : ((h1 : ℚ) + (m1' : ℚ) / 60 < (h2 : ℚ) + (m2' : ℚ) / 60) ↔
      ((60 * h1 + m1' : ℚ) < (60 * h2 + m2' : ℚ)) := by
    constructor <;> intro hh <;> linarith
  have step2 : ((60 * h1 + m1' : ℚ) < (60 * h2 + m2' : ℚ)) ↔
      (60 * h1 + m1' < 60 * h2 + m2') := by
    exact_mod_cast Iff.rfl
  rw [step1, step2]
  omega

/-- Witness for C9 at `"9:00 AM"` and `"10:30 AM"`. -/
theorem claim_C9_witness :
    time_to_float "9:00 AM" = some ((9 : ℚ) + (0 : ℚ) / 60) ∧
    time_to_float "10:30 AM" = some ((10 : ℚ) + (30 : ℚ) / 60) ∧
    (((9 : ℚ) + (0 : ℚ) / 60 < (10 : ℚ) + (30 : ℚ) / 60) ↔
      (9 < 10 ∨ (9 = 10 ∧ 0 < 30))) :=
  claim_C9 "9:00 AM" "10:30 AM" 9 0 10 30 (by decide) (by decide)

/-! ### Event list operations (C7, C10) -/

theorem time_to_float_eq {s : String} {h m : ℕ}
    (H : parse_time s = some (h, m)) :
    time_to_float s = some ((h : ℚ) + (m : ℚ) / 60) := by
  simp [time_to_float, H]

theorem eraseIdx_append_singleton {α : Type} (l : List α) (a : α) :
    (l ++ [a]).eraseIdx l.length = l := by
  induction l with
  | nil => rfl
  | cons x xs ih => simpa [List.eraseIdx] using ih

theorem add_event_some {presets : List (String × String)}
    {events evs' : List ScheduleEvent} {f : AddForm}
    (H : add_event presets events f = some evs') :
    evs' = events ++
      [⟨stripStr f.title, f.day, stripStr f.start_time, stripStr f.end_time,
        stripStr f.location, ((presets.lookup f.color_name).getD "#3498db")⟩] := by
  unfold add_event at H
  split at H
  · split at H
    · split at H
      · exact absurd H (by simp)
      · rw [Option.some.injEq] at H
        exact H.symm
    · exact absurd H (by simp)
  · exact absurd H (by simp)

/-- C7: a successful `add_event` appends exactly one event at the end of
the list, and deleting at that insertion index restores the previous list
verbatim (all remaining events keep their order). -/
theorem claim_C7 (presets : List (String × String))
    (events evs' : List ScheduleEvent) (f : AddForm)
    (H : add_event presets events f = some evs') :
    delete_event evs' events.length = some events := by
  rw [add_event_some H]
  unfold delete_event
  rw [if_pos (by simp)]
  rw [eraseIdx_append_singleton]

/-- Witness for C7: add an event to a one-element list, then delete at
index 1; the original list returns. -/
theorem claim_C7_witness :
    ∃ evs', add_event color_presets [lectureEvent] blueForm = some evs' ∧
      delete_event evs' 1 = some [lectureEvent] := by
  have h9 : time_to_float (stripStr blueForm.start_time) =
      some ((9 : ℚ) + (0 : ℚ) / 60) :=
    time_to_float_eq (by decide)
  have h10 : time_to_float (stripStr blueForm.end_time) =
      some ((10 : ℚ) + (30 : ℚ) / 60) :=
    time_to_float_eq (by decide)
  have hadd : add_event color_presets [lectureEvent] blueForm =
      some ([lectureEvent] ++
        [⟨stripStr blueForm.title, blueForm.day, stripStr blueForm.start_time,
          stripStr blueForm.end_time, stripStr blueForm.location,
          ((color_presets.lookup blueForm.color_name).getD "#3498db")⟩]) := by
    unfold add_event
    rw [if_pos ⟨by decide, by decide, by decide, by decide⟩]
    simp only [h9, h10]
    rw [if_neg (by norm_num)]
  refine ⟨_, hadd, ?_⟩
  exact claim_C7 color_presets [lectureEvent] _ blueForm hadd

/-- C10: when the selected color name is absent from the preset mapping,
`add_event` does not fail; the event is created with the default color
`"#3498db"` (given that the other validations pass). -/
theorem claim_C10 (presets : List (String × String))
    (events : List ScheduleEvent) (f : AddForm) (sf ef : ℚ)
    (hlk : presets.lookup f.color_name = none)
    (ht : stripStr f.title ≠ "") (hd : f.day ≠ "")
    (hs : time_to_float (stripStr f.start_time) = some sf)
    (he : time_to_float (stripStr f.end_time) = some ef)
    (hlt : sf < ef) :
    add_event presets events f =
      some (events ++ [⟨stripStr f.title, f.day, stripStr f.start_time,
        stripStr f.end_time, stripStr f.location, "#3498db"⟩]) := by
  have hs0 : stripStr f.start_time ≠ "" := by
    intro h0
    rw [h0, (by decide : time_to_float "" = (none : Option ℚ))] at hs
    exact absurd hs (by simp)
  have he0 : stripStr f.end_time ≠ "" := by
    intro h0
    rw [h0, (by decide : time_to_float "" = (none : Option ℚ))] at he
    exact absurd he (by simp)
  unfold add_event
  rw [if_pos ⟨ht, hd, hs0, he0⟩]
  simp only [hs, he]
  rw [if_neg (not_le.mpr hlt), hlk]
  rfl

/-- Witness for C10: `"Magenta"` is not a preset name, yet the event is
added, with color `"#3498db"`. -/
theorem claim_C10_witness :
    add_event color_presets [] magentaForm =
      some [⟨"Office Hours", "Monday", "9:00 AM", "10:30 AM", "Room 210",
        "#3498db"⟩] := by
  have h := claim_C10 color_presets [] magentaForm
    ((9 : ℚ) + (0 : ℚ) / 60) ((10 : ℚ) + (30 : ℚ) / 60)
    (by decide) (by decide) (by decide)
    (time_to_float_eq (by decide)) (time_to_float_eq (by decide)) (by norm_num)
  rw [h]
  decide

/-! ### Contrast color selection (C3, C4) -/

theorem hex_ge48 {c : Char} (h : isHexDigitC c = true) : 48 ≤ c.toNat := by
  unfold isHexDigitC Char.isDigit at h
  simp only [Bool.or_eq_true, Bool.and_eq_true, decide_eq_true_eq] at h
  rcases h with (⟨h1, -⟩ | ⟨h1, -⟩) | ⟨h1, -⟩
  · exact h1
  · have h2 : 97 ≤ c.toNat := h1
    omega
  · have h2 : 65 ≤ c.toNat := h1
    omega

theorem hex_not_space {c : Char} (h : isHexDigitC c = true) :
    isSpaceC c = false := by
  have h48 := hex_ge48 h
  cases hs : isSpaceC c
  · rfl
  · exfalso
    unfold isSpaceC at hs
    simp only [Bool.or_eq_true, beq_iff_eq] at hs
    rcases hs with ((((rfl | rfl) | rfl) | rfl) | h11) | h12
    · exact absurd h48 (by decide)
    · exact absurd h48 (by decide)
    · exact absurd h48 (by decide)
    · exact absurd h48 (by decide)
    · omega
    · omega

theorem hex_ne_hash {c : Char} (h : isHexDigitC c = true) :
    (c == '#') = false := by
  have h48 := hex_ge48 h
  cases hq : (c == '#')
  · rfl
  · rw [beq_iff_eq] at hq
    subst hq
    exact absurd h48 (by decide)

theorem hex_ne_plus {c : Char} (h : isHexDigitC c = true) : c ≠ '+' := by
  have h48 := hex_ge48 h
  rintro rfl
  exact absurd h48 (by decide)

theorem hex_ne_minus {c : Char} (h : isHexDigitC c = true) : c ≠ '-' := by
  have h48 := hex_ge48 h
  rintro rfl
  exact absurd h48 (by decide)

theorem dropWhile_no {p : Char → Bool} {l : List Char}
    (h : ∀ c ∈ l, p c = false) : l.dropWhile p = l := by
  cases l with
  | nil => rfl
  | cons a l => simp [List.dropWhile_cons, h a (by simp)]

theorem stripList_eq_self {l : List Char} (h : ∀ c ∈ l, isSpaceC c = false) :
    stripList l = l := by
  unfold stripList
  rw [dropWhile_no h, dropWhile_no (fun c hc => h c (List.mem_reverse.1 hc))]
  exact List.reverse_reverse l

theorem pyInt16_hex2 {a b : Char} (ha : isHexDigitC a = true)
    (hb : isHexDigitC b = true) :
    pyInt16 [a, b] = some ((16 * hexVal a + hexVal b : ℕ) : ℤ) := by
  have hstrip : stripList [a, b] = [a, b] := by
    refine stripList_eq_self ?_
    intro c hc
    rcases List.mem_cons.1 hc with rfl | hc
    · exact hex_not_space ha
    · rcases List.mem_cons.1 hc with rfl | hc
      · exact hex_not_space hb
      · exact absurd hc (List.not_mem_nil c)
  unfold pyInt16
  rw [hstrip]
  split
  · rename_i r heq
    exact absurd (List.cons.injEq .. ▸ heq).1 (hex_ne_plus ha)
  · rename_i r heq
    exact absurd (List.cons.injEq .. ▸ heq).1 (hex_ne_minus ha)
  · have hall : natHex [a, b] = some (hexToNat [a, b]) := by
      unfold natHex
      rw [if_pos ⟨by simp, by simp [ha, hb]⟩]
    rw [hall]
    simp [hexToNat]

theorem lumGt_iff (x : ℤ × ℕ) :
    (lumGtThreshold x = true) ↔ (127.5 : ℚ) < dyToRat x := by
  unfold lumGtThreshold dyToRat
  rw [decide_eq_true_eq]
  rw [show (127.5 : ℚ) = 255 / 2 by norm_num]
  rw [div_lt_div_iff₀ (by norm_num) (by positivity)]
  constructor
  · intro h
    have h' : ((255 * 2 ^ x.2 : ℤ) : ℚ) < ((2 * x.1 : ℤ) : ℚ) := by exact_mod_cast h
    push_cast at h'
    linarith
  · intro h
    have h' : ((255 * 2 ^ x.2 : ℤ) : ℚ) < ((2 * x.1 : ℤ) : ℚ) := by
      push_cast
      linarith
    exact_mod_cast h'

theorem dropWhile_hash {pre : List Char} (hp : ∀ c ∈ pre, c = '#')
    {a : Char} (ha : (a == '#') = false) (l : List Char) :
    (pre ++ a :: l).dropWhile (· == '#') = a :: l := by
  induction pre with
  | nil => simp [List.dropWhile_cons, ha]
  | cons x xs ih =>
    have hx : x = '#' := hp x (by simp)
    subst hx
    rw [List.cons_append, List.dropWhile_cons]
    simp only [beq_self_eq_true, if_true]
    exact ih fun c hc => hp c (List.mem_cons_of_mem _ hc)

theorem get_text_color_eq {s : String} {a b c d e f : Char}
    (hdrop : s.data.dropWhile (· == '#') = [a, b, c, d, e, f]) :
    get_text_color s =
      match pyInt16 [a, b], pyInt16 [c, d], pyInt16 [e, f] with
      | some r, some g, some bl =>
        some (if lumGtThreshold (lum_fp r g bl) then "black" else "white")
      | _, _, _ => none := by
  simp only [get_text_color]
  rw [hdrop]
  rfl

set_option maxRecDepth 40000

/-- C3 (amended): stripping the optional `#` prefix, a well-formed
6-hex-digit color is decoded to its three channels and BLACK is returned
exactly when the luminance computed in IEEE binary64 arithmetic exceeds
`127.5`; `#FFFFFF` gives BLACK and `#000000` gives WHITE, and the
exact-luminance-127.5 input `#E45A39` resolves to WHITE. (The original
claim's exact-arithmetic threshold fails on one boundary input, see the
counterexample.) -/
theorem claim_C3 :
    (∀ (pre : List Char) (a b c d e f : Char) (s : String),
      (∀ x ∈ pre, x = '#') →
      isHexDigitC a = true → isHexDigitC b = true → isHexDigitC c = true →
      isHexDigitC d = true → isHexDigitC e = true → isHexDigitC f = true →
      s.data = pre ++ [a, b, c, d, e, f] →
      get_text_color s =
        some (if (127.5 : ℚ) <
            dyToRat (lum_fp ((16 * hexVal a + hexVal b : ℕ) : ℤ)
              ((16 * hexVal c + hexVal d : ℕ) : ℤ)
              ((16 * hexVal e + hexVal f : ℕ) : ℤ))
          then "black" else "white")) ∧
    get_text_color "#FFFFFF" = some "black" ∧
    get_text_color "#000000" = some "white" ∧
    lum_exact 228 90 57 = (127.5 : ℚ) ∧
    get_text_color "#E45A39" = some "white" := by
  refine ⟨?_, by decide, by decide, ?_, by decide⟩
  · intro pre a b c d e f s hpre ha hb hc hd he hf hs
    have hdrop : s.data.dropWhile (· == '#') = [a, b, c, d, e, f] := by
      rw [hs]
      exact dropWhile_hash hpre (hex_ne_hash ha) _
    rw [get_text_color_eq hdrop, pyInt16_hex2 ha hb, pyInt16_hex2 hc hd,
      pyInt16_hex2 he hf]
    simp only [lumGt_iff]
  · unfold lum_exact
    push_cast
    norm_num

/-- Counterexample to C3 as stated: `"#DA3AF8"` decodes to channels
(218, 58, 248) whose exact luminance is exactly `127.5`, yet the code
returns BLACK, because the binary64 evaluation of the luminance is
slightly above the threshold. -/
theorem claim_C3_counterexample :
    lum_exact 218 58 248 = (127.5 : ℚ) ∧
    get_text_color "#DA3AF8" = some "black" := by
  constructor
  · unfold lum_exact
    push_cast
    norm_num
  · decide

/-- Witness for C3 at `"#FFFFFF"`. -/
theorem claim_C3_witness :
    get_text_color "#FFFFFF" =
      some (if (127.5 : ℚ) <
          dyToRat (lum_fp ((16 * hexVal 'F' + hexVal 'F' : ℕ) : ℤ)
            ((16 * hexVal 'F' + hexVal 'F' : ℕ) : ℤ)
            ((16 * hexVal 'F' + hexVal 'F' : ℕ) : ℤ))
        then "black" else "white") :=
  claim_C3.1 ['#'] 'F' 'F' 'F' 'F' 'F' 'F' "#FFFFFF" (by simp)
    (by decide) (by decide) (by decide) (by decide) (by decide) (by decide)
    (by decide)

/-- C4 (amended): inputs whose residue after stripping leading `#` has at
most 4 characters fail (the `[4:6]` slice is empty and `int` raises), and
non-hex characters among the decoded slices fail, e.g. `"GGGGGG"`; but the
function does not reject over-long input: 5-character and more-than-6
character strings with decodable slices silently return a color. -/
theorem claim_C4 :
    (∀ s : String, (s.data.dropWhile (· == '#')).length ≤ 4 →
      get_text_color s = none) ∧
    get_text_color "GGGGGG" = none ∧
    get_text_color "FFFFF" = some "black" ∧
    get_text_color "#FFFFFFFF" = some "black" := by
  refine ⟨?_, by decide, by decide, by decide⟩
  intro s hlen
  have h4 : (s.data.dropWhile (· == '#')).drop 4 = [] :=
    List.drop_eq_nil_of_le hlen
  simp only [get_text_color]
  rw [h4]
  cases pyInt16 ((s.data.dropWhile (· == '#')).take 2) <;>
    cases pyInt16 (((s.data.dropWhile (· == '#')).drop 2).take 2) <;> rfl

/-- Counterexample to C4 as stated: the malformed 8-hex-digit input
`"#FFFFFFFF"` does not fail; the code silently returns a text color. -/
theorem claim_C4_counterexample :
    get_text_color "#FFFFFFFF" = some "black" := by
  decide

/-- Witness for C4 at the too-short input `"FFF"`. -/
theorem claim_C4_witness :
    ("FFF".data.dropWhile (· == '#')).length ≤ 4 ∧
      get_text_color "FFF" = none :=
  ⟨by decide, claim_C4.1 "FFF" (by decide)⟩

/-! ### Grid layout (C5, C6, C8) -/

theorem end_hour_map_range {s : String} {e : ℕ} (H : end_hour_map s = some e) :
    18 ≤ e ∧ e ≤ 23 := by
  unfold end_hour_map at H
  split_ifs at H <;> injection H with H' <;> omega

theorem length_map_range {α : Type} (f : ℕ → α) (n : ℕ) :
    ((List.range n).map f).length = n := by
  rw [List.length_map, List.length_range]

theorem getElem?_map_range {α : Type} (f : ℕ → α) {n j : ℕ} (h : j < n) :
    ((List.range n).map f)[j]? = some (f j) := by
  rw [List.getElem?_map, List.getElem?_range h]
  rfl

/-- C5: a successful layout has exactly `numSelectedDays + 1` vertical grid
lines, the j-th at `x = j * day_width`, and exactly
`end_hour - start_hour + 1` horizontal grid lines, the one for hour `h` at
`y = time_height - (h - start_hour) * (time_height / total_hours)`. -/
theorem claim_C5 (events : List ScheduleEvent) (day_vars : List (String × Bool))
    (ehs : String) (e : ℕ) (L : GridLayout)
    (He : end_hour_map ehs = some e)
    (HL : create_schedule_pdf events day_vars ehs = some L) :
    L.vlines.length = (selected_days day_vars).length + 1 ∧
    (∀ j, j ≤ (selected_days day_vars).length →
      L.vlines[j]? = some ((j : ℚ) * day_width)) ∧
    L.hlines.length = e - start_hour + 1 ∧
    (∀ h, start_hour ≤ h → h ≤ e →
      L.hlines[h - start_hour]? =
        some (time_height (e - start_hour) -
          ((h : ℚ) - (start_hour : ℚ)) *
            (time_height (e - start_hour) / ((e - start_hour : ℕ) : ℚ)))) := by
  obtain ⟨he18, he23⟩ := end_hour_map_range He
  simp only [create_schedule_pdf, He] at HL
  split at HL
  · exact absurd HL (by simp)
  · split at HL
    · rename_i placed hplaced
      rw [Option.some.injEq] at HL
      subst HL
      refine ⟨length_map_range _ _, ?_, ?_, ?_⟩
      · intro j hj
        exact getElem?_map_range _ (Nat.lt_succ_of_le hj)
      · rw [length_map_range]
        unfold start_hour
        omega
      · intro h h8 hhe
        have hidx : h - start_hour < e + 1 - start_hour := by
          unfold start_hour at *
          omega
        rw [getElem?_map_range _ hidx]
        have hcast : ((h - start_hour : ℕ) : ℚ) = (h : ℚ) - (start_hour : ℚ) := by
          push_cast [h8]
          ring
        rw [hcast]
    · exact absurd HL (by simp)

/-- Witness for C5: one selected day and end hour 18 give 2 vertical and
11 horizontal grid lines. -/
theorem claim_C5_witness :
    ∃ L, create_schedule_pdf [] [("Monday", true)] "6 PM" = some L ∧
      L.vlines.length = 2 ∧ L.hlines.length = 11 := by
  have hL : ∃ L, create_schedule_pdf [] [("Monday", true)] "6 PM" = some L := by
    simp only [create_schedule_pdf]
    rw [if_neg (by decide : ¬(selected_days [("Monday", true)] = []))]
    rw [show end_hour_map "6 PM" = some 18 from by decide]
    exact ⟨_, rfl⟩
  obtain ⟨L, hL⟩ := hL
  have h := claim_C5 [] [("Monday", true)] "6 PM" 18 L (by decide) hL
  refine ⟨L, hL, ?_, ?_⟩
  · rw [h.1]
    decide
  · rw [h.2.2.1]
    decide

/-- C6: a placed event rectangle sits at `endY` computed by the inverted
mapping, its height is `startY - endY`, and that height is strictly
positive whenever the event's start float is below its end float (the
creation invariant) and the hour range is nonempty. -/
theorem claim_C6 (pos : List (String × ℕ)) (total : ℕ) (ev : ScheduleEvent)
    (r : EventRect) (sf ef : ℚ)
    (hs : time_to_float ev.start_time = some sf)
    (he : time_to_float ev.end_time = some ef)
    (hp : placeEvent pos total ev = some (some r))
    (hlt : sf < ef) (htot : 0 < total) :
    r.y = time_height total -
      (ef - (start_hour : ℚ)) * (time_height total / (total : ℚ)) ∧
    r.height = (time_height total -
      (sf - (start_hour : ℚ)) * (time_height total / (total : ℚ))) - r.y ∧
    0 < r.height := by
  simp only [placeEvent] at hp
  split at hp
  · exact absurd hp (by simp)
  · rename_i i hlook
    split at hp
    · rename_i sf' ef' tc hq1 hq2 hq3
      rw [hs, Option.some.injEq] at hq1
      rw [he, Option.some.injEq] at hq2
      subst hq1
      subst hq2
      rw [Option.some.injEq, Option.some.injEq] at hp
      subst hp
      have ht0 : (0 : ℚ) < (total : ℚ) := by exact_mod_cast htot
      have hth : (0 : ℚ) < time_height total := by
        unfold time_height
        have : (0 : ℚ) < 4 / 5 := by norm_num
        exact mul_pos ht0 this
      refine ⟨rfl, by ring, ?_⟩
      have hrw : (time_height total -
            (sf - (start_hour : ℚ)) * (time_height total / (total : ℚ))) -
          (time_height total -
            (ef - (start_hour : ℚ)) * (time_height total / (total : ℚ))) =
          (ef - sf) * (time_height total / (total : ℚ)) := by
        ring
      show 0 < (time_height total -
          (sf - (start_hour : ℚ)) * (time_height total / (total : ℚ))) -
        (time_height total -
          (ef - (start_hour : ℚ)) * (time_height total / (total : ℚ)))
      rw [hrw]
      exact mul_pos (sub_pos.2 hlt) (div_pos hth ht0)
    · exact absurd hp (by simp)

/-- Witness for C6: the 9:00 AM – 10:30 AM Monday event with end hour 18
is placed with height `1.5 * (time_height / total_hours) = 1.2`. -/
theorem claim_C6_witness :
    ∃ r, placeEvent
        (dayPositions ["Monday", "Tuesday", "Wednesday", "Thursday", "Friday"] 0)
        10 officeEvent = some (some r) ∧
      0 < r.height ∧ r.height = (3 / 2 : ℚ) * ((4 : ℚ) / 5) := by
  have h2 : time_to_float officeEvent.start_time = some ((9 : ℚ) + (0 : ℚ) / 60) :=
    time_to_float_eq (by decide)
  have h3 : time_to_float officeEvent.end_time = some ((10 : ℚ) + (30 : ℚ) / 60) :=
    time_to_float_eq (by decide)
  have h1 : (dayPositions ["Monday", "Tuesday", "Wednesday", "Thursday", "Friday"]
      0).lookup officeEvent.day = some 0 := by decide
  have h4 : get_text_color officeEvent.color = some "black" := by decide
  have hplace : placeEvent
      (dayPositions ["Monday", "Tuesday", "Wednesday", "Thursday", "Friday"] 0)
      10 officeEvent =
      some (some ⟨officeEvent.day, 1 / 20, 6, 19 / 10, 6 / 5, "black"⟩) := by
    simp only [placeEvent, h1, h2, h3, h4]
    norm_num [time_height, day_width, start_hour]
  have h := claim_C6 _ 10 officeEvent _ ((9 : ℚ) + (0 : ℚ) / 60)
    ((10 : ℚ) + (30 : ℚ) / 60) h2 h3 hplace (by norm_num) (by norm_num)
  exact ⟨_, hplace, h.2.2, by norm_num⟩

theorem dayPositions_none {d : String} {ds : List String} :
    ∀ {i : ℕ}, (dayPositions ds i).lookup d = none → d ∉ ds := by
  induction ds with
  | nil => intro i _ hmem; exact absurd hmem (List.not_mem_nil d)
  | cons x xs ih =>
    intro i h hmem
    by_cases hdx : d = x
    · subst hdx
      simp [dayPositions, List.lookup] at h
    · have hb : (d == x) = false := beq_eq_false_iff_ne.mpr hdx
      simp only [dayPositions, List.lookup, hb] at h
      rcases List.mem_cons.1 hmem with heq | hmem'
      · exact hdx heq
      · exact ih h hmem'

theorem dayPositions_some {d : String} {ds : List String} :
    ∀ {i j : ℕ}, (dayPositions ds i).lookup d = some j → d ∈ ds := by
  induction ds with
  | nil => intro i j h; exact absurd h (by simp [dayPositions, List.lookup])
  | cons x xs ih =>
    intro i j h
    by_cases hdx : d = x
    · rw [hdx]
      exact List.mem_cons_self x xs
    · have hb : (d == x) = false := beq_eq_false_iff_ne.mpr hdx
      simp only [dayPositions, List.lookup, hb] at h
      exact List.mem_cons_of_mem x (ih h)

theorem traverse_place_days {sel : List String} {tot : ℕ} :
    ∀ {evs : List ScheduleEvent} {os : List (Option EventRect)},
      traverseOpt (placeEvent (dayPositions sel 0) tot) evs = some os →
      (os.filterMap id).map EventRect.day =
        (evs.filter (fun ev => decide (ev.day ∈ sel))).map ScheduleEvent.day := by
  intro evs
  induction evs with
  | nil =>
    intro os H
    simp only [traverseOpt, Option.some.injEq] at H
    subst H
    simp
  | cons ev evs ih =>
    intro os H
    simp only [traverseOpt] at H
    split at H
    · rename_i b bs heq1 heq2
      rw [Option.some.injEq] at H
      subst H
      simp only [placeEvent] at heq1
      split at heq1
      · rename_i hlook
        rw [Option.some.injEq] at heq1
        subst heq1
        have hnot : ev.day ∉ sel := dayPositions_none hlook
        simp [List.filterMap_cons, List.filter_cons, hnot, ih heq2]
      · rename_i i hlook
        split at heq1
        · rename_i sf ef tc hq1 hq2 hq3
          rw [Option.some.injEq] at heq1
          subst heq1
          have hmem : ev.day ∈ sel := dayPositions_some hlook
          simp [List.filterMap_cons, List.filter_cons, hmem, ih heq2]
        · exact absurd heq1 (by simp)
    · exact absurd H (by simp)

/-- C8: generating a document leaves the application state (event list and
configuration) unchanged, and the rendered event rectangles are exactly
the events whose day is selected, in order — events of unselected days are
omitted from the render but remain in the list. -/
theorem claim_C8 (st st' : AppState) (L : GridLayout)
    (H : generate_pdf st = some (st', L)) :
    st' = st ∧
    L.event_rects.map EventRect.day =
      (st.events.filter
        (fun ev => decide (ev.day ∈ selected_days st.day_vars))).map
        ScheduleEvent.day := by
  unfold generate_pdf at H
  split at H
  · exact absurd H (by simp)
  · split at H
    · rename_i L0 hcr
      rw [Option.some.injEq, Prod.mk.injEq] at H
      obtain ⟨h1, h2⟩ := H
      subst h2
      refine ⟨h1.symm, ?_⟩
      cases he : end_hour_map st.end_hour_str with
      | none =>
        simp only [create_schedule_pdf, he] at hcr
        split at hcr <;> exact absurd hcr (by simp)
      | some e =>
        simp only [create_schedule_pdf, he] at hcr
        split at hcr
        · exact absurd hcr (by simp)
        · split at hcr
          · rename_i placed hplaced
            rw [Option.some.injEq] at hcr
            subst hcr
            simpa using traverse_place_days hplaced
          · exact absurd hcr (by simp)
    · exact absurd H (by simp)

/-- Witness for C8: a state holding one Monday event with only Tuesday
selected generates successfully; the state is unchanged and no rectangle
is rendered, while the Monday event remains in the list. -/
theorem claim_C8_witness :
    ∃ st' L, generate_pdf sampleState = some (st', L) ∧ st' = sampleState ∧
      L.event_rects.map EventRect.day = [] := by
  have hlook : (dayPositions (selected_days sampleState.day_vars) 0).lookup
      officeEvent.day = none := by decide
  have htrav : traverseOpt
      (placeEvent (dayPositions (selected_days sampleState.day_vars) 0)
        (18 - start_hour)) sampleState.events = some [none] := by
    show traverseOpt _ [officeEvent] = some [none]
    simp only [traverseOpt, placeEvent, hlook]
  have hend : end_hour_map sampleState.end_hour_str = some 18 := by decide
  have hcr : ∃ L, create_schedule_pdf sampleState.events sampleState.day_vars
      sampleState.end_hour_str = some L ∧ L.event_rects = [] := by
    simp only [create_schedule_pdf, hend]
    rw [if_neg (by decide : ¬(selected_days sampleState.day_vars = []))]
    rw [htrav]
    exact ⟨_, rfl, rfl⟩
  obtain ⟨L, hL, hLe⟩ := hcr
  have hgen : generate_pdf sampleState = some (sampleState, L) := by
    unfold generate_pdf
    rw [if_neg (by decide : ¬(sampleState.events = []))]
    rw [hL]
  have h := claim_C8 sampleState sampleState L hgen
  exact ⟨sampleState, L, hgen, h.1, h.2.trans (by decide)⟩

end Sched
